import Mathlib

/-!
Verification of the certificate chain tool.

This file gives a shallow embedding of the certificate-handling core of the
repository: the distinguished-name (DN) parser and formatter, the chain
builder and validator, the root / intermediate / end-entity certificate
constructors of the key-vault client, the DER-to-PEM conversion, and the
certificate-tool level chain validation wrapper.  Theorems at the end settle
the specification claims against these definitions.

Conventions: JavaScript strings are modelled as `String` where only concrete
evaluation is needed and as `List Char` where inductive reasoning over the
text is needed; `Date` values are modelled as integer epoch milliseconds for
the chain validator, and as a year plus an opaque within-year remainder for
the key-vault constructors (whose code manipulates dates through
`setFullYear`).  Binary data is a list of byte values (`Nat`, each below
256).  Key material is abstract: a key pair is a pair of identifiers, and a
certificate records the identifier of the key that signed it.
-/

namespace CertDemo

/-- JavaScript strings are modelled as lists of characters, so that every
text operation used by the embedding is structurally recursive and can be
evaluated by the kernel. -/
abbrev JStr := List Char

/-- Split on every occurrence of a separator character, keeping empty
pieces, as JavaScript `split` does. -/
def splitOnChar (sep : Char) : JStr → List JStr
  | [] => [[]]
  | c :: rest =>
      if c = sep then [] :: splitOnChar sep rest
      else
        match splitOnChar sep rest with
        | h :: t => (c :: h) :: t
        | [] => [[c]]

/-- Whitespace test used by `trim`. -/
def isWsChar (c : Char) : Bool :=
  c = ' ' ∨ c = '\t' ∨ c = '\n' ∨ c = '\r'

/-- JavaScript `trim`: drop whitespace from both ends. -/
def trimChars (s : JStr) : JStr :=
  ((s.dropWhile isWsChar).reverse.dropWhile isWsChar).reverse

/-- JavaScript `toUpperCase` on the ASCII range. -/
def toUpperChars (s : JStr) : JStr :=
  s.map Char.toUpper

/-- Attribute of a distinguished name, mirroring the forge certificate field
object: an optional long name (`commonName`, ...), an optional short name
(`CN`, ...), and a value.  Fields produced by `parseSubject` carry only the
short name; forge fills the long name in when the field set is installed on
a certificate. -/
structure CertField where
  name : Option JStr
  shortName : Option JStr
  value : JStr
deriving DecidableEq, Repr

/-- JavaScript `opt || dflt` for numbers: `0`, like an absent value, is falsy
and selects the default. -/
def jsOrNat (opt : Option Nat) (dflt : Nat) : Nat :=
  match opt with
  | none => dflt
  | some 0 => dflt
  | some n => n

/-- Recognize one `TYPE=value` attribute, mirroring the `switch` over the
upper-cased key in `KeyVaultClient.parseSubject`; unrecognized types give
`none` and are dropped. -/
def recognizeField (key value : JStr) : Option CertField :=
  let k := toUpperChars key
  if k = "CN".data then some ⟨none, some "CN".data, value⟩
  else if k = "O".data then some ⟨none, some "O".data, value⟩
  else if k = "OU".data then some ⟨none, some "OU".data, value⟩
  else if k = "C".data then some ⟨none, some "C".data, value⟩
  else if k = "ST".data then some ⟨none, some "ST".data, value⟩
  else if k = "L".data then some ⟨none, some "L".data, value⟩
  else if k = "E".data then some ⟨none, some "E".data, value⟩
  else if k = "EMAILADDRESS".data then some ⟨none, some "E".data, value⟩
  else none

/-- Handling of one comma-separated part in `parseSubject`: trim, split on
the equals sign, take the first two pieces, and require both to be nonempty
(the JavaScript truthiness test `if (key && value)`). -/
def parsePart (part : JStr) : Option CertField :=
  match splitOnChar '=' (trimChars part) with
  | key :: value :: _ =>
      if key ≠ [] ∧ value ≠ [] then recognizeField key value else none
  | _ => none

/-- Embedding of `KeyVaultClient.parseSubject`: split the subject string on
commas and collect the recognized attributes in order. -/
def parseSubject (subject : JStr) : List CertField :=
  (splitOnChar ',' subject).filterMap parsePart

/-- Long attribute name forge associates to each recognized short name when
a parsed attribute list is installed with `setSubject` / `setIssuer`. -/
def fillName (f : CertField) : CertField :=
  match f.shortName with
  | some sn =>
      if sn = "CN".data then { f with name := some "commonName".data }
      else if sn = "O".data then { f with name := some "organizationName".data }
      else if sn = "OU".data then
        { f with name := some "organizationalUnitName".data }
      else if sn = "C".data then { f with name := some "countryName".data }
      else if sn = "ST".data then
        { f with name := some "stateOrProvinceName".data }
      else if sn = "L".data then { f with name := some "localityName".data }
      else if sn = "E".data then { f with name := some "emailAddress".data }
      else f
  | none => f

/-- Normalization applied by forge `setSubject` / `setIssuer` to an
attribute list. -/
def setDN (attrs : List CertField) : List CertField :=
  attrs.map fillName

/-- JavaScript template interpolation of an optional string: an absent value
prints as the text `undefined`. -/
def jsShow (s : Option JStr) : JStr :=
  match s with
  | none => "undefined".data
  | some t => t

/-- Join a list of strings with a separator string. -/
def joinSep (sep : JStr) : List JStr → JStr
  | [] => []
  | [x] => x
  | x :: xs => x ++ sep ++ joinSep sep xs

/-- Embedding of `CertificateChainBuilder.distinguishedNameToString`: format
each field as `name=value` using the LONG name slot, joined by a comma and a
space. -/
def distinguishedNameToString (dn : List CertField) : JStr :=
  joinSep ", ".data (dn.map (fun f => jsShow f.name ++ "=".data ++ f.value))

/-- Certificate record as seen by the chain builder: subject and issuer
attribute lists and a validity window in epoch milliseconds. -/
structure ChainCert where
  subject : List CertField
  issuer : List CertField
  notBefore : Int
  notAfter : Int
deriving DecidableEq, Repr

/-- Positional field comparison loop inside
`CertificateChainBuilder.compareDistinguishedNames`: each position must
agree on the `name` slot and the `value` slot. -/
def cmpFields : List CertField → List CertField → Bool
  | [], [] => true
  | f1 :: r1, f2 :: r2 =>
      f1.name = f2.name ∧ f1.value = f2.value && cmpFields r1 r2
  | _, _ => false

/-- Embedding of `CertificateChainBuilder.compareDistinguishedNames`: equal
length, then pointwise comparison of name and value. -/
def compareDistinguishedNames (dn1 dn2 : List CertField) : Bool :=
  if dn1.length ≠ dn2.length then false else cmpFields dn1 dn2

/-- Validity-window test from `validateCertificateChain`: the record fails
when `notBefore > now` or `notAfter < now`. -/
def withinValidity (now : Int) (c : ChainCert) : Bool :=
  if c.notBefore > now ∨ c.notAfter < now then false else true

/-- Loop of `CertificateChainBuilder.validateCertificateChain`: every record
must be within its validity window, and every record except the last must
have an issuer DN equal to the subject DN of the next record. -/
def validateFrom (now : Int) : List ChainCert → Bool
  | [] => true
  | [c] => withinValidity now c
  | c :: next :: rest =>
      withinValidity now c
        && compareDistinguishedNames c.issuer next.subject
        && validateFrom now (next :: rest)

/-- Embedding of `CertificateChainBuilder.validateCertificateChain`: an
empty chain is invalid; otherwise run the loop. -/
def validateCertificateChain (now : Int) (chain : List ChainCert) : Bool :=
  if chain.isEmpty then false else validateFrom now chain

/-- JavaScript `Date` as manipulated by the key-vault constructors: a
calendar year plus an opaque remainder (position within the year).
`setFullYear` replaces the year and keeps the remainder. -/
structure JSDate where
  year : Int
  rest : Nat
deriving DecidableEq, Repr

/-- Freshly generated RSA key pair, abstracted to identifiers for the
public and the private half. -/
structure KeyPairModel where
  pub : Nat
  priv : Nat
deriving DecidableEq, Repr

/-- Configuration shared by the certificate-creation calls of the key-vault
client (`RootCAConfig` / `IntermediateCAConfig` / `EndEntityCertConfig`);
absent optional numbers are `none`. -/
structure CACreationConfig where
  name : String
  subject : JStr
  issuerCA : Option String
  keySize : Option Nat
  validityDays : Option Nat
  pathLength : Option Nat
  extendedKeyUsage : Option (List JStr)
  san : Option (List JStr)
deriving Repr

/-- Subject-alternative-name entry: forge type tag (1 = email, 2 = DNS) and
the name. -/
structure AltName where
  typ : Nat
  value : JStr
deriving DecidableEq, Repr

/-- Extended-key-usage flags as set by `createEndEntityCertificate`. -/
structure EKUFlags where
  serverAuth : Bool
  clientAuth : Bool
  codeSigning : Bool
  emailProtection : Bool
  timeStamping : Bool
deriving DecidableEq, Repr

/-- Certificate record produced by the key-vault client constructors:
identifier of the carried public key, identifier of the signing private
key, bit size of the generated key pair, serial, subject and issuer
attribute lists (after forge normalization), validity window, and the
extension content relevant to the claims. -/
structure HierarchyCert where
  publicKey : Nat
  signedWith : Nat
  keyBits : Nat
  serialNumber : String
  subject : List CertField
  issuer : List CertField
  notBefore : JSDate
  notAfter : JSDate
  basicConstraintsCA : Bool
  pathLenConstraint : Option Nat
  akiIssuerSerial : Option String
  eku : Option EKUFlags
  san : Option (List AltName)
deriving Repr

/-- Validity window set by the key-vault constructors: `notBefore` is
`new Date()` (the issuance instant) and `notAfter` is a copy of it whose
year is advanced by `(validityDays || dflt) / 365`, truncated (the code
calls `setFullYear` with that quotient). -/
def kvValidity (now : JSDate) (validityDays : Option Nat) (dflt : Nat) :
    JSDate × JSDate :=
  (now, { now with year := now.year + (jsOrNat validityDays dflt / 365 : Nat) })

/-- Embedding of the certificate construction in `KeyVaultClient.createRootCA`:
a fresh key pair of the requested size (default 4096; no minimum-size check
exists), subject AND issuer both set from `parseSubject(config.subject)`,
CA basic constraints, and a signature with the private half of the fresh
pair. -/
def createRootCACert (config : CACreationConfig) (kp : KeyPairModel)
    (now : JSDate) (serial : String) : HierarchyCert :=
  let validity := kvValidity now config.validityDays 3650
  { publicKey := kp.pub
    signedWith := kp.priv
    keyBits := jsOrNat config.keySize 4096
    serialNumber := serial
    subject := setDN (parseSubject config.subject)
    issuer := setDN (parseSubject config.subject)
    notBefore := validity.1
    notAfter := validity.2
    basicConstraintsCA := true
    pathLenConstraint := some (jsOrNat config.pathLength 0)
    akiIssuerSerial := none
    eku := none
    san := none }

/-- Embedding of the certificate construction in
`KeyVaultClient.createIntermediateCA`, after the issuer certificate and its
private key were fetched from the store.  The code passes
`parseSubject(config.subject)` to BOTH `setSubject` and `setIssuer` (it
never uses `issuerCert.subject`), and signs with the issuer private key. -/
def createIntermediateCACert (config : CACreationConfig)
    (issuerCert : HierarchyCert) (issuerPrivateKey : Nat) (kp : KeyPairModel)
    (now : JSDate) (serial : String) : HierarchyCert :=
  let validity := kvValidity now config.validityDays 1825
  { publicKey := kp.pub
    signedWith := issuerPrivateKey
    keyBits := jsOrNat config.keySize 4096
    serialNumber := serial
    subject := setDN (parseSubject config.subject)
    issuer := setDN (parseSubject config.subject)
    notBefore := validity.1
    notAfter := validity.2
    basicConstraintsCA := true
    pathLenConstraint := some (jsOrNat config.pathLength 0)
    akiIssuerSerial := some issuerCert.serialNumber
    eku := none
    san := none }

/-- Embedding of the certificate construction in
`KeyVaultClient.createEndEntityCertificate`.  As with the intermediate CA,
the issuer attribute list is `parseSubject(config.subject)` — the subject
again — while the signature uses the issuer private key; basic constraints
carry `cA = false` and no path length. -/
def createEndEntityCert (config : CACreationConfig)
    (issuerCert : HierarchyCert) (issuerPrivateKey : Nat) (kp : KeyPairModel)
    (now : JSDate) (serial : String) : HierarchyCert :=
  let validity := kvValidity now config.validityDays 365
  { publicKey := kp.pub
    signedWith := issuerPrivateKey
    keyBits := jsOrNat config.keySize 2048
    serialNumber := serial
    subject := setDN (parseSubject config.subject)
    issuer := setDN (parseSubject config.subject)
    notBefore := validity.1
    notAfter := validity.2
    basicConstraintsCA := false
    pathLenConstraint := none
    akiIssuerSerial := some issuerCert.serialNumber
    eku := match config.extendedKeyUsage with
      | some l =>
          if l.length > 0 then
            some ⟨l.contains "serverAuth".data, l.contains "clientAuth".data,
                  l.contains "codeSigning".data, l.contains "emailProtection".data,
                  l.contains "timeStamping".data⟩
          else none
      | none => none
    san := match config.san with
      | some l =>
          if l.length > 0 then
            some (l.map (fun n => ⟨if n.contains '@' then 1 else 2, n⟩))
          else none
      | none => none }

/-- Chain configuration consumed by the assembler (`ChainConfig`). -/
structure ChainConfigModel where
  sourceCertificateName : String
  targetCertificateName : JStr
  intermediateCertificates : Option (List String)
  rootCertificates : Option (List String)
  validityPeriodDays : Option Nat

/-- Milliseconds in a day. -/
def dayMs : Int := 24 * 60 * 60 * 1000

/-- Embedding of `CertificateChainBuilder.createNewCertificate` at the
record level: subject is a single `commonName` field holding the target
name, issuer is copied from the source certificate, `notBefore` is one day
before the current time, and `notAfter` is the current time plus
`validityPeriodDays || 365` days. -/
def createNewCertificate (sourceCert : ChainCert) (config : ChainConfigModel)
    (now : Int) : ChainCert :=
  { subject := [⟨some "commonName".data, none, config.targetCertificateName⟩]
    issuer := sourceCert.issuer
    notBefore := now - dayMs
    notAfter := now + (jsOrNat config.validityPeriodDays 365 : Nat) * dayMs }

/-- Per-list loop of `CertificateChainBuilder.buildChain`: try to parse each
supplied PEM and append the parsed certificate, skipping the entry (with a
warning in the code) when parsing fails. -/
def addParsed (parse : String → Option ChainCert) (chain : List ChainCert)
    (pems : List String) : List ChainCert :=
  pems.foldl
    (fun acc pem =>
      match parse pem with
      | some cert => acc ++ [cert]
      | none => acc)
    chain

/-- Embedding of `CertificateChainBuilder.buildChain`: start from the new
leaf certificate, then append the supplied intermediate certificates and
then the supplied root certificates, each in the order given.  Parsing of a
supplied PEM is abstracted as a fallible function `parse`. -/
def buildChain (parse : String → Option ChainCert) (newCert : ChainCert)
    (config : ChainConfigModel) : List ChainCert :=
  let chain := [newCert]
  let chain :=
    match config.intermediateCertificates with
    | some pems => addParsed parse chain pems
    | none => chain
  match config.rootCertificates with
  | some pems => addParsed parse chain pems
  | none => chain

/-- Certificate data record exchanged between the tool layers
(`CertificateData`): PEM certificate text, optional private key, optional
list of chain PEMs. -/
structure CertificateDataModel where
  certificate : String
  privateKey : Option String
  chain : Option (List String)

/-- Embedding of `CertificateTool.validateCertificateChain`: an absent or
empty chain list is reported valid; otherwise every chain PEM is parsed
(a parse failure raises, is caught, and yields `false`) and the parsed
records are handed to the builder-level validator. -/
def certToolValidateChain (now : Int) (parse : String → Option ChainCert)
    (cd : CertificateDataModel) : Bool :=
  match cd.chain with
  | none => true
  | some pems =>
      if pems.length = 0 then true
      else
        match pems.mapM parse with
        | some certs => validateCertificateChain now certs
        | none => false

/-! ### PEM codec -/

/-- Base64 alphabet in index order. -/
def b64Alphabet : JStr :=
  "ABCDEFGHIJKLMNOPQRSTUVWXYZabcdefghijklmnopqrstuvwxyz0123456789+/".data

/-- Character for a six-bit value. -/
def b64Char (n : Nat) : Char :=
  b64Alphabet.getD n 'A'

/-- Six-bit value of a base64 character (64 when not in the alphabet). -/
def b64Val (c : Char) : Nat :=
  b64Alphabet.indexOf c

/-- Base64 encoding with padding of a byte list, as
`Buffer.from(derData).toString('base64')` produces: three bytes become four
characters; a trailing group of one or two bytes is padded with `=`. -/
def b64Encode : List Nat → JStr
  | [] => []
  | [b1] => [b64Char (b1 / 4), b64Char (b1 % 4 * 16), '=', '=']
  | [b1, b2] =>
      [b64Char (b1 / 4), b64Char (b1 % 4 * 16 + b2 / 16),
        b64Char (b2 % 16 * 4), '=']
  | b1 :: b2 :: b3 :: rest =>
      b64Char (b1 / 4) :: b64Char (b1 % 4 * 16 + b2 / 16) ::
        b64Char (b2 % 16 * 4 + b3 / 64) :: b64Char (b3 % 64) :: b64Encode rest

/-- Base64 decoding of four-character groups, honouring `=` padding in the
final group. -/
def b64Decode : JStr → List Nat
  | c1 :: c2 :: c3 :: c4 :: rest =>
      if c3 = '=' then [b64Val c1 * 4 + b64Val c2 / 16]
      else if c4 = '=' then
        [b64Val c1 * 4 + b64Val c2 / 16, b64Val c2 % 16 * 16 + b64Val c3 / 4]
      else
        (b64Val c1 * 4 + b64Val c2 / 16) ::
          (b64Val c2 % 16 * 16 + b64Val c3 / 4) ::
          (b64Val c3 % 4 * 64 + b64Val c4) :: b64Decode rest
  | _ => []

/-- Splitting of a string into consecutive 64-character pieces, the model of
the regular expression chunking in `convertToPem` (an empty string gives no
pieces, matching the null-match fallback in the code). -/
def chunksOf64 (s : JStr) : List JStr :=
  if h : s = [] then []
  else s.take 64 :: chunksOf64 (s.drop 64)
termination_by s.length
decreasing_by
  simp only [List.length_drop]
  have hlen : s.length ≠ 0 := fun hc => h (List.length_eq_zero.mp hc)
  omega

/-- BEGIN framing line of `convertToPem`. -/
def pemHeader (type : JStr) : JStr :=
  "-----BEGIN ".data ++ type ++ "-----".data

/-- END framing line of `convertToPem`. -/
def pemFooter (type : JStr) : JStr :=
  "-----END ".data ++ type ++ "-----".data

/-- Embedding of `KeyVaultClient.convertToPem`: base64-encode the DER
bytes, wrap the text at 64 characters per line, and add the BEGIN / END
framing lines. -/
def convertToPem (derData : List Nat) (type : JStr) : JStr :=
  pemHeader type ++
    '\n' :: (joinSep ['\n'] (chunksOf64 (b64Encode derData)) ++
      '\n' :: pemFooter type)

/-- Test for a framing line: the line starts with five dashes. -/
def startsWithDashes (line : JStr) : Bool :=
  line.take 5 = "-----".data

/-- Modelled from the spec: `pemToDer` has no implementation under `src/`
(the specification assigns it to the PemCodec component); per the
specification it strips the header and footer lines and all whitespace and
base64-decodes the remaining text. -/
def pemToDer (pem : JStr) : List Nat :=
  b64Decode
    ((((splitOnChar '\n' pem).filter
          (fun l => ! startsWithDashes l)).flatten).filter
      (fun c => ! isWsChar c))

/-! ### Helper lemmas -/

/-- Structural DN equality as the specification states it: same length, and
the same attribute name and value at each position. -/
def DNStructEq (d1 d2 : List CertField) : Prop :=
  d1.length = d2.length ∧
    ∀ i (h1 : i < d1.length) (h2 : i < d2.length),
      (d1.get ⟨i, h1⟩).name = (d2.get ⟨i, h2⟩).name ∧
        (d1.get ⟨i, h1⟩).value = (d2.get ⟨i, h2⟩).value

theorem cmpFields_iff (d1 d2 : List CertField) :
    cmpFields d1 d2 = true ↔
      List.Forall₂ (fun f1 f2 => f1.name = f2.name ∧ f1.value = f2.value) d1 d2 := by
  induction d1 generalizing d2 with
  | nil =>
      cases d2 <;> simp [cmpFields]
  | cons f1 r1 ih =>
      cases d2 with
      | nil => simp [cmpFields]
      | cons f2 r2 =>
          simp [cmpFields, ih, List.forall₂_cons, and_assoc]

theorem compareDistinguishedNames_iff (d1 d2 : List CertField) :
    compareDistinguishedNames d1 d2 = true ↔ DNStructEq d1 d2 := by
  unfold compareDistinguishedNames DNStructEq
  by_cases hlen : d1.length = d2.length
  · simp only [hlen, ne_eq, not_true_eq_false, if_false, ite_false]
    rw [cmpFields_iff, List.forall₂_iff_get]
    simp [hlen]
  · simp [hlen]

theorem withinValidity_iff (now : Int) (c : ChainCert) :
    withinValidity now c = true ↔ c.notBefore ≤ now ∧ now ≤ c.notAfter := by
  unfold withinValidity
  split
  next h =>
    constructor
    · intro hfalse; exact absurd hfalse (by decide)
    · intro hp; omega
  next h =>
    push_neg at h
    constructor
    · intro _; exact ⟨h.1, h.2⟩
    · intro _; rfl

theorem validateFrom_iff (now : Int) (chain : List ChainCert) :
    validateFrom now chain = true ↔
      (∀ c ∈ chain, withinValidity now c = true) ∧
        List.Chain' (fun a b => compareDistinguishedNames a.issuer b.subject = true)
          chain := by
  induction chain with
  | nil => simp [validateFrom]
  | cons c rest ih =>
      cases rest with
      | nil => simp [validateFrom]
      | cons next tail =>
          rw [validateFrom]
          simp only [Bool.and_eq_true, ih, List.chain'_cons, List.mem_cons]
          constructor
          · rintro ⟨⟨hc, hcmp⟩, hall, hchain⟩
            refine ⟨?_, hcmp, hchain⟩
            rintro x (rfl | hx)
            · exact hc
            · exact hall x hx
          · rintro ⟨hall, hcmp, hchain⟩
            exact ⟨⟨hall c (Or.inl rfl), hcmp⟩,
              fun x hx => hall x (Or.inr hx), hchain⟩

theorem addParsed_eq (parse : String → Option ChainCert) (chain : List ChainCert)
    (pems : List String) :
    addParsed parse chain pems = chain ++ pems.filterMap parse := by
  induction pems generalizing chain with
  | nil => simp [addParsed]
  | cons pem rest ih =>
      cases hp : parse pem with
      | none =>
          have hstep : addParsed parse chain (pem :: rest) =
              addParsed parse chain rest := by
            simp [addParsed, hp]
          rw [hstep, ih, List.filterMap_cons, hp]
      | some cert =>
          have hstep : addParsed parse chain (pem :: rest) =
              addParsed parse (chain ++ [cert]) rest := by
            simp [addParsed, hp]
          rw [hstep, ih, List.filterMap_cons, hp]
          simp

/-! ### PEM codec lemmas -/

theorem b64Char_val : ∀ n, n < 64 → b64Val (b64Char n) = n := by decide

theorem b64Char_props : ∀ n, n < 64 →
    isWsChar (b64Char n) = false ∧ b64Char n ≠ '\n' ∧ b64Char n ≠ '-' ∧
      b64Char n ≠ '=' := by decide

theorem padChar_props :
    isWsChar '=' = false ∧ ('=' : Char) ≠ '\n' ∧ ('=' : Char) ≠ '-' := by
  decide

theorem b64_roundtrip :
    ∀ (bs : List Nat), (∀ b ∈ bs, b < 256) → b64Decode (b64Encode bs) = bs
  | [], _ => rfl
  | [b1], h => by
      have hb1 : b1 < 256 := h b1 (by simp)
      have h1 := b64Char_val (b1 / 4) (by omega)
      have h2 := b64Char_val (b1 % 4 * 16) (by omega)
      simp only [b64Encode, b64Decode, if_pos rfl, if_true, h1, h2,
        List.cons.injEq, and_true]
      omega
  | [b1, b2], h => by
      have hb1 : b1 < 256 := h b1 (by simp)
      have hb2 : b2 < 256 := h b2 (by simp)
      have h1 := b64Char_val (b1 / 4) (by omega)
      have h2 := b64Char_val (b1 % 4 * 16 + b2 / 16) (by omega)
      have h3 := b64Char_val (b2 % 16 * 4) (by omega)
      have hne := (b64Char_props (b2 % 16 * 4) (by omega)).2.2.2
      simp only [b64Encode, b64Decode, if_neg hne, if_pos rfl, if_true, h1,
        h2, h3, List.cons.injEq, and_true]
      omega
  | b1 :: b2 :: b3 :: rest, h => by
      have hb1 : b1 < 256 := h b1 (by simp)
      have hb2 : b2 < 256 := h b2 (by simp)
      have hb3 : b3 < 256 := h b3 (by simp)
      have ih := b64_roundtrip rest (fun b hb => h b (by simp [hb]))
      have h1 := b64Char_val (b1 / 4) (by omega)
      have h2 := b64Char_val (b1 % 4 * 16 + b2 / 16) (by omega)
      have h3 := b64Char_val (b2 % 16 * 4 + b3 / 64) (by omega)
      have h4 := b64Char_val (b3 % 64) (by omega)
      have hne3 := (b64Char_props (b2 % 16 * 4 + b3 / 64) (by omega)).2.2.2
      have hne4 := (b64Char_props (b3 % 64) (by omega)).2.2.2
      simp only [b64Encode, b64Decode, if_neg hne3, if_neg hne4, h1, h2, h3,
        h4, ih, List.cons.injEq, and_true]
      omega

/-- Every character the encoder emits is a six-bit alphabet character or
the padding character. -/
theorem b64Encode_chars :
    ∀ (bs : List Nat), (∀ b ∈ bs, b < 256) →
      ∀ c ∈ b64Encode bs, (∃ n, n < 64 ∧ c = b64Char n) ∨ c = '='
  | [], _ => by simp [b64Encode]
  | [b1], h => by
      have hb1 : b1 < 256 := h b1 (by simp)
      intro c hc
      simp only [b64Encode, List.mem_cons, List.not_mem_nil, or_false] at hc
      rcases hc with rfl | rfl | rfl | rfl
      · exact Or.inl ⟨b1 / 4, by omega, rfl⟩
      · exact Or.inl ⟨b1 % 4 * 16, by omega, rfl⟩
      · exact Or.inr rfl
      · exact Or.inr rfl
  | [b1, b2], h => by
      have hb1 : b1 < 256 := h b1 (by simp)
      have hb2 : b2 < 256 := h b2 (by simp)
      intro c hc
      simp only [b64Encode, List.mem_cons, List.not_mem_nil, or_false] at hc
      rcases hc with rfl | rfl | rfl | rfl
      · exact Or.inl ⟨b1 / 4, by omega, rfl⟩
      · exact Or.inl ⟨b1 % 4 * 16 + b2 / 16, by omega, rfl⟩
      · exact Or.inl ⟨b2 % 16 * 4, by omega, rfl⟩
      · exact Or.inr rfl
  | b1 :: b2 :: b3 :: rest, h => by
      have hb1 : b1 < 256 := h b1 (by simp)
      have hb2 : b2 < 256 := h b2 (by simp)
      have hb3 : b3 < 256 := h b3 (by simp)
      have ih := b64Encode_chars rest (fun b hb => h b (by simp [hb]))
      intro c hc
      simp only [b64Encode, List.mem_cons] at hc
      rcases hc with rfl | rfl | rfl | rfl | hc
      · exact Or.inl ⟨b1 / 4, by omega, rfl⟩
      · exact Or.inl ⟨b1 % 4 * 16 + b2 / 16, by omega, rfl⟩
      · exact Or.inl ⟨b2 % 16 * 4 + b3 / 64, by omega, rfl⟩
      · exact Or.inl ⟨b3 % 64, by omega, rfl⟩
      · exact ih c hc

/-- Characters emitted by the encoder are not whitespace, not a newline,
and not a dash. -/
theorem b64Encode_chars_good (bs : List Nat) (h : ∀ b ∈ bs, b < 256) :
    ∀ c ∈ b64Encode bs, isWsChar c = false ∧ c ≠ '\n' ∧ c ≠ '-' := by
  intro c hc
  rcases b64Encode_chars bs h c hc with ⟨n, hn, rfl⟩ | rfl
  · exact ⟨(b64Char_props n hn).1, (b64Char_props n hn).2.1,
      (b64Char_props n hn).2.2.1⟩
  · exact ⟨padChar_props.1, padChar_props.2.1, padChar_props.2.2⟩

theorem chunksOf64_eq_nil (s : JStr) : chunksOf64 s = [] ↔ s = [] := by
  rw [chunksOf64]
  split
  next h => simp [h]
  next h => simp [h]

theorem chunksOf64_flatten (s : JStr) : (chunksOf64 s).flatten = s := by
  rw [chunksOf64]
  split
  next h => simp [h]
  next h =>
    rw [List.flatten_cons, chunksOf64_flatten (s.drop 64),
      List.take_append_drop]
termination_by s.length
decreasing_by
  rename_i h
  simp only [List.length_drop]
  have hlen : s.length ≠ 0 := fun hc => h (List.length_eq_zero.mp hc)
  omega

theorem chunksOf64_props (s : JStr) :
    ∀ l ∈ chunksOf64 s, l ≠ [] ∧ l.length ≤ 64 := by
  rw [chunksOf64]
  split
  next h => simp
  next h =>
    intro l hl
    rcases List.mem_cons.mp hl with rfl | hl2
    · have hlen : s.length ≠ 0 := fun hc => h (List.length_eq_zero.mp hc)
      constructor
      · intro hc
        have hl0 := congrArg List.length hc
        simp only [List.length_take, List.length_nil] at hl0
        omega
      · simp [List.length_take]
    · exact chunksOf64_props (s.drop 64) l hl2
termination_by s.length
decreasing_by
  rename_i h
  simp only [List.length_drop]
  have hlen : s.length ≠ 0 := fun hc => h (List.length_eq_zero.mp hc)
  omega

theorem chunksOf64_full (s : JStr) :
    ∀ i, i + 1 < (chunksOf64 s).length →
      ((chunksOf64 s).getD i []).length = 64 := by
  generalize hn : s.length = n
  induction n using Nat.strong_induction_on generalizing s with
  | _ n ih =>
    rw [chunksOf64]
    split
    next h =>
      intro i hi
      simp at hi
    next h =>
      intro i hi
      have hlen0 : s.length ≠ 0 := fun hc => h (List.length_eq_zero.mp hc)
      cases i with
      | zero =>
          simp only [List.length_cons] at hi
          have hne : chunksOf64 (s.drop 64) ≠ [] := by
            intro hc
            rw [hc] at hi
            simp at hi
          have hdr : s.drop 64 ≠ [] :=
            fun hc => hne ((chunksOf64_eq_nil _).mpr hc)
          have hlen : s.length > 64 := by
            have hd0 : (s.drop 64).length ≠ 0 :=
              fun hc => hdr (List.length_eq_zero.mp hc)
            simp only [List.length_drop] at hd0
            omega
          simp only [List.getD_cons_zero, List.length_take]
          omega
      | succ j =>
          simp only [List.length_cons] at hi
          have hlt : (s.drop 64).length < n := by
            simp only [List.length_drop]
            omega
          have hrec := ih (s.drop 64).length hlt (s.drop 64) rfl j (by omega)
          simpa [List.getD_cons_succ] using hrec

theorem splitOnChar_no_sep (sep : Char) (l : JStr) (h : sep ∉ l) :
    splitOnChar sep l = [l] := by
  induction l with
  | nil => rfl
  | cons c rest ih =>
      have hcs : c ≠ sep := fun hc => h (by simp [hc])
      have hrest : sep ∉ rest := fun hc => h (by simp [hc])
      rw [splitOnChar, if_neg hcs, ih hrest]

theorem splitOnChar_append (sep : Char) (a rest : JStr) (h : sep ∉ a) :
    splitOnChar sep (a ++ sep :: rest) = a :: splitOnChar sep rest := by
  induction a with
  | nil => simp [splitOnChar]
  | cons c a2 ih =>
      have hcs : c ≠ sep := fun hc => h (by simp [hc])
      have ha2 : sep ∉ a2 := fun hc => h (by simp [hc])
      rw [List.cons_append, splitOnChar, if_neg hcs, ih ha2]

theorem splitOnChar_joinSep (sep : Char) :
    ∀ (chunks : List JStr) (tail : JStr),
      (∀ l ∈ chunks, sep ∉ l) → sep ∉ tail →
      splitOnChar sep (joinSep [sep] chunks ++ sep :: tail) =
        (if chunks = [] then [[]] else chunks) ++ [tail]
  | [], tail, _, ht => by
      simp [joinSep, splitOnChar, splitOnChar_no_sep sep tail ht]
  | [c], tail, hch, ht => by
      simp only [joinSep, if_neg (by simp : ¬([c] : List JStr) = [])]
      rw [splitOnChar_append sep c tail (hch c (by simp)),
        splitOnChar_no_sep sep tail ht]
      simp
  | c :: c2 :: t, tail, hch, ht => by
      have ih := splitOnChar_joinSep sep (c2 :: t) tail
        (fun l hl => hch l (List.mem_cons_of_mem c hl)) ht
      simp only [joinSep]
      have hassoc : (c ++ [sep] ++ joinSep [sep] (c2 :: t)) ++ sep :: tail =
          c ++ sep :: (joinSep [sep] (c2 :: t) ++ sep :: tail) := by
        simp
      rw [hassoc, splitOnChar_append sep c _ (hch c (by simp)), ih]
      simp

theorem pemHeader_no_newline (type : JStr) (ht : '\n' ∉ type) :
    '\n' ∉ pemHeader type := by
  simp only [pemHeader, List.mem_append, not_or]
  exact ⟨⟨by decide, ht⟩, by decide⟩

theorem pemFooter_no_newline (type : JStr) (ht : '\n' ∉ type) :
    '\n' ∉ pemFooter type := by
  simp only [pemFooter, List.mem_append, not_or]
  exact ⟨⟨by decide, ht⟩, by decide⟩

theorem startsWithDashes_header (type : JStr) :
    startsWithDashes (pemHeader type) = true := by
  simp only [startsWithDashes, pemHeader, decide_eq_true_eq]
  rw [List.append_assoc,
    List.take_append_of_le_length (by decide : (5:Nat) ≤ "-----BEGIN ".data.length)]
  decide

theorem startsWithDashes_footer (type : JStr) :
    startsWithDashes (pemFooter type) = true := by
  simp only [startsWithDashes, pemFooter, decide_eq_true_eq]
  rw [List.append_assoc,
    List.take_append_of_le_length (by decide : (5:Nat) ≤ "-----END ".data.length)]
  decide

theorem startsWithDashes_of_head (c : Char) (hc : c ≠ '-') (t : JStr) :
    startsWithDashes (c :: t) = false := by
  simp only [startsWithDashes, decide_eq_false_iff_not]
  intro hcontra
  rw [show List.take 5 (c :: t) = c :: List.take 4 t from rfl] at hcontra
  injection hcontra with h1 h2
  exact hc h1

/-! ### Concrete issuance scenario (specification, section 8) -/

/-- Root CA configuration of the specification scenario. -/
def rootScenarioConfig : CACreationConfig :=
  { name := "root1", subject := "CN=Root,O=Org,C=US".data, issuerCA := none,
    keySize := some 2048, validityDays := some 3650, pathLength := some 1,
    extendedKeyUsage := none, san := none }

/-- Root CA certificate of the scenario, built with key pair `(1, 2)`. -/
def rootScenarioCert : HierarchyCert :=
  createRootCACert rootScenarioConfig ⟨1, 2⟩ ⟨2024, 100⟩ "0a"

/-- Intermediate CA configuration of the specification scenario. -/
def interScenarioConfig : CACreationConfig :=
  { name := "int1", subject := "CN=Int,O=Org,C=US".data,
    issuerCA := some "root1", keySize := some 2048,
    validityDays := some 1825, pathLength := some 0,
    extendedKeyUsage := none, san := none }

/-- Intermediate CA certificate of the scenario: issued below the scenario
root, signed with the root private key `2`, its own key pair `(3, 4)`. -/
def interScenarioCert : HierarchyCert :=
  createIntermediateCACert interScenarioConfig rootScenarioCert 2 ⟨3, 4⟩
    ⟨2024, 100⟩ "0b"

/-- End-entity configuration of the specification scenario. -/
def leafScenarioConfig : CACreationConfig :=
  { name := "leaf1", subject := "CN=example.com".data, issuerCA := some "int1",
    keySize := some 2048, validityDays := some 365, pathLength := none,
    extendedKeyUsage := some ["serverAuth".data],
    san := some ["example.com".data, "api.example.com".data] }

/-- End-entity certificate of the scenario: issued below the scenario
intermediate, signed with the intermediate private key `4`, its own key
pair `(5, 6)`. -/
def leafScenarioCert : HierarchyCert :=
  createEndEntityCert leafScenarioConfig interScenarioCert 4 ⟨5, 6⟩
    ⟨2024, 100⟩ "0c"

/-! ### Claims -/

/-- C1: the claim fails on the code.  `createIntermediateCA` passes
`parseSubject(config.subject)` to `setIssuer` — the certificate re-uses its
OWN subject as issuer instead of the issuing root subject — although the
certificate is indeed signed with the root private key.  In the scenario
(root subject `CN=Root,O=Org,C=US`, intermediate subject
`CN=Int,O=Org,C=US`), the produced intermediate is signed with the root key
`2`, its issuer DN equals its own subject DN, and its issuer DN differs
from the root subject DN. -/
theorem createIntermediateCA_issuer_bug :
    interScenarioCert.signedWith = 2 ∧
      interScenarioCert.issuer = interScenarioCert.subject ∧
      interScenarioCert.issuer ≠ rootScenarioCert.subject := by
  refine ⟨rfl, rfl, ?_⟩
  decide

/-- C3: the claim fails on the code for the same reason as C1.
`createEndEntityCertificate` sets the leaf issuer DN from the leaf subject
(`setIssuer(parseSubject(config.subject))`), so in the scenario the leaf
issuer DN differs from the intermediate subject DN; the basic-constraints
part of the claim (`cA = false`) does hold, and the leaf is signed with the
intermediate private key `4`. -/
theorem createEndEntityCert_issuer_bug :
    leafScenarioCert.basicConstraintsCA = false ∧
      leafScenarioCert.signedWith = 4 ∧
      leafScenarioCert.issuer = leafScenarioCert.subject ∧
      leafScenarioCert.issuer ≠ interScenarioCert.subject := by
  refine ⟨rfl, rfl, rfl, ?_⟩
  decide

/-- C4: every certificate produced by `createRootCA` has equal subject and
issuer DN, carries `basicConstraints.cA = true`, and is self-signed: it
carries the public half and is signed with the private half of the freshly
generated key pair. -/
theorem createRootCA_self_signed (config : CACreationConfig)
    (kp : KeyPairModel) (now : JSDate) (serial : String) :
    (createRootCACert config kp now serial).subject =
        (createRootCACert config kp now serial).issuer ∧
      (createRootCACert config kp now serial).basicConstraintsCA = true ∧
      (createRootCACert config kp now serial).publicKey = kp.pub ∧
      (createRootCACert config kp now serial).signedWith = kp.priv :=
  ⟨rfl, rfl, rfl, rfl⟩

/-- C2: the chain validator returns `false` on the empty chain, and
otherwise returns `true` exactly when every record satisfies
`notBefore ≤ now ≤ notAfter` and every adjacent pair links the issuer DN of
the earlier record to the subject DN of the later one under structural DN
equality (same length, same attribute name and value at each position). -/
theorem validateCertificateChain_correct (now : Int) (chain : List ChainCert) :
    validateCertificateChain now chain = true ↔
      chain ≠ [] ∧ (∀ c ∈ chain, c.notBefore ≤ now ∧ now ≤ c.notAfter) ∧
        List.Chain' (fun a b => DNStructEq a.issuer b.subject) chain := by
  unfold validateCertificateChain
  split
  next hemp =>
    have hnil : chain = [] := by simpa [List.isEmpty_iff] using hemp
    subst hnil
    simp
  next hemp =>
    have hne : chain ≠ [] := by simpa [List.isEmpty_iff] using hemp
    rw [validateFrom_iff]
    constructor
    · rintro ⟨hall, hchain⟩
      exact ⟨hne, fun c hc => (withinValidity_iff now c).mp (hall c hc),
        hchain.imp fun a b h => (compareDistinguishedNames_iff _ _).mp h⟩
    · rintro ⟨-, hall, hchain⟩
      exact ⟨fun c hc => (withinValidity_iff now c).mpr (hall c hc),
        hchain.imp fun a b h => (compareDistinguishedNames_iff _ _).mpr h⟩

/-- C7: the assembled chain is exactly the new leaf certificate followed by
the successfully parsed supplied intermediate PEMs in order, then the
successfully parsed supplied root PEMs in order; entries whose parse fails
are skipped (dropped by `filterMap`) without aborting or moving the
others. -/
theorem buildChain_order (parse : String → Option ChainCert)
    (newCert : ChainCert) (config : ChainConfigModel) :
    buildChain parse newCert config =
      newCert :: ((config.intermediateCertificates.getD []).filterMap parse ++
        (config.rootCertificates.getD []).filterMap parse) := by
  obtain ⟨src, tgt, ints, roots, v⟩ := config
  cases ints <;> cases roots <;> simp [buildChain, addParsed_eq]

/-- C5: the claim fails on the code.  In `createRootCA` the `notBefore`
instant is `new Date()` — exactly the issuance time, with no clock-skew
offset — and in the chain assembler the leaf has
`notBefore = now - 1 day` but `notAfter = now + validityDays`, which is
`notBefore + (validityDays + 1)` days rather than
`notBefore + validityDays` days. -/
theorem validity_claim_counterexample :
    (createRootCACert rootScenarioConfig ⟨1, 2⟩ ⟨2024, 100⟩ "0a").notBefore =
        ⟨2024, 100⟩ ∧
      (createNewCertificate ⟨[], [], 0, 0⟩ ⟨"s", "t".data, none, none, some 365⟩
            1700000000000).notAfter ≠
        (createNewCertificate ⟨[], [], 0, 0⟩ ⟨"s", "t".data, none, none, some 365⟩
            1700000000000).notBefore + 365 * dayMs := by
  exact ⟨rfl, by decide⟩

/-- C5 (amended): in the key-vault constructors `notBefore` equals the
issuance instant exactly and `notAfter` advances the calendar year of that
instant by the truncation of `validityDays / 365` (defaults 3650 / 1825 /
365 days); in the chain assembler the leaf has `notBefore` one day before
the current time and `notAfter` equal to the current time plus
`validityPeriodDays || 365` days, i.e. `notBefore` plus one day more than
the requested validity. -/
theorem validity_behavior :
    (∀ (config : CACreationConfig) (kp : KeyPairModel) (now : JSDate)
        (serial : String),
      (createRootCACert config kp now serial).notBefore = now ∧
        (createRootCACert config kp now serial).notAfter =
          ⟨now.year + (jsOrNat config.validityDays 3650 / 365 : Nat),
            now.rest⟩) ∧
    (∀ (config : CACreationConfig) (ic : HierarchyCert) (ik : Nat)
        (kp : KeyPairModel) (now : JSDate) (serial : String),
      (createIntermediateCACert config ic ik kp now serial).notBefore = now ∧
        (createIntermediateCACert config ic ik kp now serial).notAfter =
          ⟨now.year + (jsOrNat config.validityDays 1825 / 365 : Nat),
            now.rest⟩) ∧
    (∀ (config : CACreationConfig) (ic : HierarchyCert) (ik : Nat)
        (kp : KeyPairModel) (now : JSDate) (serial : String),
      (createEndEntityCert config ic ik kp now serial).notBefore = now ∧
        (createEndEntityCert config ic ik kp now serial).notAfter =
          ⟨now.year + (jsOrNat config.validityDays 365 / 365 : Nat),
            now.rest⟩) ∧
    (∀ (src : ChainCert) (config : ChainConfigModel) (now : Int),
      (createNewCertificate src config now).notBefore = now - dayMs ∧
        (createNewCertificate src config now).notAfter =
          (createNewCertificate src config now).notBefore +
            ((jsOrNat config.validityPeriodDays 365 : Nat) + 1) * dayMs) := by
  refine ⟨fun config kp now serial => ⟨rfl, rfl⟩,
    fun config ic ik kp now serial => ⟨rfl, rfl⟩,
    fun config ic ik kp now serial => ⟨rfl, rfl⟩,
    fun src config now => ⟨rfl, ?_⟩⟩
  show now + (jsOrNat config.validityPeriodDays 365 : Nat) * dayMs =
    now - dayMs + ((jsOrNat config.validityPeriodDays 365 : Nat) + 1) * dayMs
  ring

/-- C6: the claim fails on the code.  `createRootCA` performs no key-size
validation at all: a request with `keySize = 512` (below the claimed 1024
minimum) still produces a certificate, whose generated key has exactly 512
bits. -/
theorem keySize_claim_counterexample :
    (createRootCACert { rootScenarioConfig with keySize := some 512 } ⟨1, 2⟩
          ⟨2024, 100⟩ "0a").keyBits = 512 ∧ 512 < 1024 :=
  ⟨rfl, by decide⟩

/-- C6 (amended): no minimum-key-size check exists; `createRootCA` uses a
key of exactly the requested size whenever the request carries a nonzero
size — including sizes below 1024 — and falls back to 4096 bits when the
requested size is absent or zero. -/
theorem createRootCA_no_keysize_check (config : CACreationConfig)
    (kp : KeyPairModel) (now : JSDate) (serial : String) :
    (createRootCACert config kp now serial).keyBits =
        jsOrNat config.keySize 4096 ∧
      (∀ n, config.keySize = some n → n ≠ 0 →
        (createRootCACert config kp now serial).keyBits = n) ∧
      (config.keySize = none →
        (createRootCACert config kp now serial).keyBits = 4096) ∧
      (config.keySize = some 0 →
        (createRootCACert config kp now serial).keyBits = 4096) := by
  refine ⟨rfl, fun n hn hnz => ?_, fun hn => ?_, fun hn => ?_⟩
  · show jsOrNat config.keySize 4096 = n
    rw [hn]
    cases n with
    | zero => exact absurd rfl hnz
    | succ m => rfl
  · show jsOrNat config.keySize 4096 = 4096
    rw [hn]
    rfl
  · show jsOrNat config.keySize 4096 = 4096
    rw [hn]
    rfl

/-- Witness for C6 (amended): the 512-bit request of the counterexample
satisfies the nonzero-size hypotheses and yields a 512-bit key, and a
request with no key size satisfies the absence hypothesis and yields the
4096-bit fallback. -/
theorem createRootCA_no_keysize_check_witness :
    (({ rootScenarioConfig with keySize := some 512 } :
        CACreationConfig).keySize = some 512 ∧ (512 : Nat) ≠ 0 ∧
      ({ rootScenarioConfig with keySize := none } :
        CACreationConfig).keySize = none) ∧
      (createRootCACert { rootScenarioConfig with keySize := some 512 } ⟨1, 2⟩
          ⟨2024, 100⟩ "0a").keyBits = 512 ∧
      (createRootCACert { rootScenarioConfig with keySize := none } ⟨1, 2⟩
          ⟨2024, 100⟩ "0a").keyBits = 4096 :=
  ⟨⟨rfl, by decide, rfl⟩,
    (createRootCA_no_keysize_check
          { rootScenarioConfig with keySize := some 512 } ⟨1, 2⟩ ⟨2024, 100⟩
          "0a").2.1 512 rfl (by decide),
    (createRootCA_no_keysize_check
          { rootScenarioConfig with keySize := none } ⟨1, 2⟩ ⟨2024, 100⟩
          "0a").2.2.1 rfl⟩

/-- C8: the claim fails on the code.  `parseSubject` emits attributes
carrying only the SHORT type name (`CN`, ...), while
`distinguishedNameToString` formats the LONG name slot of each field —
`undefined` on raw parsed attributes, or the forge long name
(`commonName`, ...) once the attributes have been installed on a
certificate.  Either way the formatted string uses no recognized short
type, so re-parsing it loses every attribute instead of recovering the
DN. -/
theorem parseSubject_roundtrip_fails :
    parseSubject "CN=Root".data = [⟨none, some "CN".data, "Root".data⟩] ∧
      distinguishedNameToString (parseSubject "CN=Root".data) =
        "undefined=Root".data ∧
      parseSubject (distinguishedNameToString (parseSubject "CN=Root".data)) =
        [] ∧
      distinguishedNameToString (setDN (parseSubject "CN=Root".data)) =
        "commonName=Root".data ∧
      parseSubject
          (distinguishedNameToString (setDN (parseSubject "CN=Root".data))) =
        [] :=
  ⟨by decide, by decide, by decide, by decide, by decide⟩

/-- C10: the certificate-tool wrapper treats an absent or empty chain list
as valid (returning `true`), in contrast to the builder-level validator,
which rejects the empty chain; and when parsing any chain PEM fails, the
wrapper returns `false` instead of propagating the exception. -/
theorem certToolValidateChain_spec :
    (∀ (now : Int) (parse : String → Option ChainCert) (cert : String)
        (pk : Option String),
      certToolValidateChain now parse ⟨cert, pk, none⟩ = true) ∧
    (∀ (now : Int) (parse : String → Option ChainCert) (cert : String)
        (pk : Option String),
      certToolValidateChain now parse ⟨cert, pk, some []⟩ = true) ∧
    (∀ now : Int, validateCertificateChain now [] = false) ∧
    (∀ (now : Int) (parse : String → Option ChainCert)
        (cd : CertificateDataModel) (pems : List String),
      cd.chain = some pems → pems.mapM parse = none →
        certToolValidateChain now parse cd = false) := by
  refine ⟨fun _ _ _ _ => rfl, fun _ _ _ _ => rfl, fun _ => rfl, ?_⟩
  intro now parse cd pems hchain hfail
  obtain ⟨c, pk, ch⟩ := cd
  simp only at hchain
  subst hchain
  unfold certToolValidateChain
  cases pems with
  | nil => simp [List.mapM, List.mapM.loop] at hfail
  | cons p ps =>
      simp only [List.length_cons]
      rw [if_neg (by simp), hfail]

/-- Witness for C10: with a parse function that fails on everything and a
one-element chain list, the hypotheses hold and the wrapper reports the
chain invalid. -/
theorem certToolValidateChain_spec_witness :
    ((⟨"c", none, some ["x"]⟩ : CertificateDataModel).chain = some ["x"] ∧
        (["x"].mapM (fun _ => (none : Option ChainCert)) = none)) ∧
      certToolValidateChain 0 (fun _ => none) ⟨"c", none, some ["x"]⟩ = false :=
  ⟨⟨rfl, by decide⟩,
    certToolValidateChain_spec.2.2.2 0 (fun _ => none) ⟨"c", none, some ["x"]⟩
      ["x"] rfl (by decide)⟩

/-- C9: decoding the PEM produced by `convertToPem` recovers the input
bytes exactly, the lines of the output are the BEGIN framing line, the
base64 body wrapped at 64 characters, and the END framing line, every body
line has at most 64 characters, and every body line except the last has
exactly 64 characters. -/
theorem convertToPem_roundtrip (der : List Nat) (h : ∀ b ∈ der, b < 256)
    (type : JStr) (ht : '\n' ∉ type) :
    pemToDer (convertToPem der type) = der ∧
      splitOnChar '\n' (convertToPem der type) =
        pemHeader type ::
          ((if chunksOf64 (b64Encode der) = [] then [[]]
              else chunksOf64 (b64Encode der)) ++ [pemFooter type]) ∧
      (∀ l ∈ chunksOf64 (b64Encode der), l.length ≤ 64) ∧
      (∀ i, i + 1 < (chunksOf64 (b64Encode der)).length →
        ((chunksOf64 (b64Encode der)).getD i []).length = 64) := by
  have hgood := b64Encode_chars_good der h
  have hchsub : ∀ l ∈ chunksOf64 (b64Encode der), ∀ c ∈ l, c ∈ b64Encode der := by
    intro l hl c hc
    rw [← chunksOf64_flatten (b64Encode der)]
    exact List.mem_flatten.mpr ⟨l, hl, hc⟩
  have hchnl : ∀ l ∈ chunksOf64 (b64Encode der), '\n' ∉ l :=
    fun l hl hc => (hgood '\n' (hchsub l hl _ hc)).2.1 rfl
  have hlines : splitOnChar '\n' (convertToPem der type) =
      pemHeader type ::
        ((if chunksOf64 (b64Encode der) = [] then [[]]
            else chunksOf64 (b64Encode der)) ++ [pemFooter type]) := by
    unfold convertToPem
    rw [splitOnChar_append '\n' (pemHeader type) _
        (pemHeader_no_newline type ht),
      splitOnChar_joinSep '\n' (chunksOf64 (b64Encode der)) (pemFooter type)
        hchnl (pemFooter_no_newline type ht)]
  refine ⟨?_, hlines, fun l hl => (chunksOf64_props (b64Encode der) l hl).2,
    chunksOf64_full (b64Encode der)⟩
  unfold pemToDer
  rw [hlines]
  have hfilter :
      (pemHeader type ::
          ((if chunksOf64 (b64Encode der) = [] then [[]]
              else chunksOf64 (b64Encode der)) ++ [pemFooter type])).filter
          (fun l => ! startsWithDashes l) =
        (if chunksOf64 (b64Encode der) = [] then [[]]
          else chunksOf64 (b64Encode der)) := by
    rw [List.filter_cons, startsWithDashes_header]
    simp only [Bool.not_true, Bool.false_eq_true, if_false, ite_false]
    rw [List.filter_append]
    have hfoot : List.filter (fun l => ! startsWithDashes l) [pemFooter type] =
        [] := by
      simp [List.filter, startsWithDashes_footer]
    rw [hfoot, List.append_nil]
    apply List.filter_eq_self.mpr
    intro l hl
    by_cases hnil : chunksOf64 (b64Encode der) = []
    · rw [if_pos hnil] at hl
      simp only [List.mem_singleton] at hl
      subst hl
      decide
    · rw [if_neg hnil] at hl
      obtain ⟨hne, -⟩ := chunksOf64_props (b64Encode der) l hl
      obtain ⟨c, t, rfl⟩ := List.exists_cons_of_ne_nil hne
      rw [startsWithDashes_of_head c
          ((hgood c (hchsub _ hl c (by simp))).2.2) t]
      rfl
  rw [hfilter]
  have hflat : (if chunksOf64 (b64Encode der) = [] then [[]]
      else chunksOf64 (b64Encode der)).flatten = b64Encode der := by
    by_cases hnil : chunksOf64 (b64Encode der) = []
    · rw [if_pos hnil]
      simp only [List.flatten_cons, List.flatten_nil, List.append_nil]
      exact ((chunksOf64_eq_nil _).mp hnil).symm
    · rw [if_neg hnil]
      exact chunksOf64_flatten _
  rw [hflat]
  have hws : (b64Encode der).filter (fun c => ! isWsChar c) = b64Encode der :=
    List.filter_eq_self.mpr fun c hc => by rw [(hgood c hc).1]; rfl
  rw [hws]
  exact b64_roundtrip der h

/-- Witness for C9: the concrete DER input `[77, 97, 110, 5, 200]` with the
label `CERTIFICATE` satisfies both hypotheses, so the round trip and the
wrapping hold there. -/
theorem convertToPem_roundtrip_witness :
    ((∀ b ∈ [77, 97, 110, 5, 200], b < 256) ∧
        '\n' ∉ "CERTIFICATE".data) ∧
      (pemToDer (convertToPem [77, 97, 110, 5, 200] "CERTIFICATE".data) =
          [77, 97, 110, 5, 200] ∧
        splitOnChar '\n'
            (convertToPem [77, 97, 110, 5, 200] "CERTIFICATE".data) =
          pemHeader "CERTIFICATE".data ::
            ((if chunksOf64 (b64Encode [77, 97, 110, 5, 200]) = [] then [[]]
                else chunksOf64 (b64Encode [77, 97, 110, 5, 200])) ++
              [pemFooter "CERTIFICATE".data]) ∧
        (∀ l ∈ chunksOf64 (b64Encode [77, 97, 110, 5, 200]),
          l.length ≤ 64) ∧
        (∀ i, i + 1 < (chunksOf64 (b64Encode [77, 97, 110, 5, 200])).length →
          ((chunksOf64 (b64Encode [77, 97, 110, 5, 200])).getD i []).length =
            64)) :=
  ⟨⟨by decide, by decide⟩,
    convertToPem_roundtrip [77, 97, 110, 5, 200] (by decide)
      "CERTIFICATE".data (by decide)⟩

end CertDemo
